import Mathlib

/-!
Verification development for the EPG builder (`src/main.py`).

The program aggregates TV schedules from two providers — Redbee ("primary")
and syn.is ("secondary") — into one channel-keyed mapping and renders it to
XMLTV.  The shallow embedding below translates the pure data transformations
of `main.py` into Lean:

* Python `str` values are modelled as `List Char` (`PyStr`); Python string
  methods (`lower`, `upper`, `strip`, `split`, `replace` with single-character
  patterns, slicing) become the corresponding list operations.
* The channel dictionary `channels_data` (a Python `dict`, insertion ordered)
  is modelled as an insertion-ordered association list `CD` with
  first-occurrence lookup and in-place update.
* Network fetches are inputs: each fetch outcome is an `Except Unit` value
  (`.error ()` models a raised request exception).  A raised exception inside
  the syn.is processing (e.g. a `KeyError` from an unknown channel key) is
  modelled with `Except CD`, the error payload carrying the dictionary state
  at the moment of the raise, because `build_epg` catches the exception at the
  top of the phase and continues with whatever state had been accumulated.
* UTC instants are modelled as `Int` seconds since the Unix epoch where the
  program does datetime arithmetic (`calculate_end_time`, the placeholder's
  24-hour span, `dates_to_fetch`).  Rendering an instant back to text
  (`datetime.isoformat` / `strftime`) is implemented with the standard civil
  calendar algorithm; the microsecond field of `datetime.now` is taken as
  zero, in which case `isoformat` prints exactly `YYYY-MM-DDTHH:MM:SS+00:00`.
-/

/-- Python `str`, modelled as its list of characters. -/
abbrev PyStr := List Char

/-- Python `str.lower()` (per character). -/
def pyLower (s : PyStr) : PyStr := s.map Char.toLower

/-- Python `str.upper()` (per character). -/
def pyUpper (s : PyStr) : PyStr := s.map Char.toUpper

/-- Python `str.strip()`: drop leading and trailing whitespace. -/
def pyStrip (s : PyStr) : PyStr :=
  ((s.dropWhile Char.isWhitespace).reverse.dropWhile Char.isWhitespace).reverse

/-- Python `str.split()` with no argument: split on whitespace runs,
discarding empty pieces. -/
def splitWs (s : PyStr) : List PyStr :=
  (s.splitOnP Char.isWhitespace).filter (fun t => !t.isEmpty)

/-- The static `channel_mappings` table of `normalize_channel_slug`
(syn.is → redbee spelling corrections). -/
def channel_mappings : List (PyStr × PyStr) :=
  [("synsport".data, "synsport1".data)]

/-- `normalize_channel_slug` from `main.py`: lowercase, remove hyphens, and
apply the remapping table when the source is `"syn"`. -/
def normalize_channel_slug (slug : PyStr) (source : PyStr) : PyStr :=
  let normalized := (pyLower slug).filter (fun c => c ≠ '-')
  if source = "syn".data then
    match channel_mappings.lookup normalized with
    | some mapped => mapped
    | none => normalized
  else normalized

/-- `format_date` from `main.py`: ISO-8601 text → XMLTV text, by deleting
every `:`, `-`, `T`, `Z` character and appending `" +0000"`.  (Sequential
single-character `str.replace` deletions equal one combined filter.) -/
def format_date (iso : PyStr) : PyStr :=
  (iso.filter (fun c => c ≠ ':' ∧ c ≠ '-' ∧ c ≠ 'T' ∧ c ≠ 'Z')) ++ " +0000".data

/-- `format_syn_date` from `main.py` (delegates to `format_date`). -/
def format_syn_date (iso : PyStr) : PyStr := format_date iso

/-- `_parse_title` from `main.py`: tokenize `raw.strip()` on whitespace; with
at least three tokens whose first starts with `S` and second starts with `E`,
return (joined remaining tokens, first token after `S`, second token after
`E`); otherwise return (`raw.strip()`, empty, empty).  Result order is
(title, season, episode), as in the source. -/
def _parse_title (raw : PyStr) : PyStr × PyStr × PyStr :=
  let parts := splitWs (pyStrip raw)
  match parts with
  | p0 :: p1 :: r0 :: rs =>
    if ("S".data.isPrefixOf p0 && "E".data.isPrefixOf p1) then
      (List.intercalate " ".data (r0 :: rs), p0.drop 1, p1.drop 1)
    else (pyStrip raw, [], [])
  | _ => (pyStrip raw, [], [])

/-- Python `int(str)` restricted to what the program feeds it (`"HH"` /
`"MM"` pieces): optional surrounding whitespace, optional sign, a nonempty
run of decimal digits; anything else raises (modelled as `none`). -/
def pyInt (s : PyStr) : Option Int :=
  let digitsVal : PyStr → Option Nat := fun ds =>
    if ds ≠ [] ∧ ds.all Char.isDigit then
      some (ds.foldl (fun acc c => acc * 10 + (c.toNat - '0'.toNat)) 0)
    else none
  match pyStrip s with
  | '-' :: ds => (digitsVal ds).map (fun n => -(n : Int))
  | '+' :: ds => (digitsVal ds).map (fun n => (n : Int))
  | ds => (digitsVal ds).map (fun n => (n : Int))

/-- The duration parsing inside `calculate_end_time`'s `try` block:
`duration_str.split(':')`, then `int(parts[0])` and `int(parts[1])`.
`none` models any raised exception (missing `:` piece or non-integer text). -/
def parseDuration (duration : PyStr) : Option (Int × Int) :=
  match duration.splitOn ':' with
  | p0 :: p1 :: _ =>
    match pyInt p0, pyInt p1 with
    | some h, some m => some (h, m)
    | _, _ => none
  | _ => none

/-- `calculate_end_time` from `main.py`, over instants in seconds: on a
successful duration parse the end is `start + hours·3600 + minutes·60`; on
any exception the fallback adds one hour.  The ISO parsing/printing of the
start instant is abstracted away (it is parsed identically in the `try` and
the fallback path, so it does not affect which branch is taken). -/
def calculate_end_time (start : Int) (duration : PyStr) : Int :=
  match parseDuration duration with
  | some (h, m) => start + 3600 * h + 60 * m
  | none => start + 3600

/-- Civil date from a day count relative to 1970-01-01 (standard proleptic
Gregorian conversion, as used by Python's `datetime`). -/
def civilFromDays (z : Int) : Int × Nat × Nat :=
  let z' := z + 719468
  let era := z'.ediv 146097
  let doe : Nat := (z'.emod 146097).toNat
  let yoe := (doe - doe / 1460 + doe / 36524 - doe / 146096) / 365
  let doy := doe - (365 * yoe + yoe / 4 - yoe / 100)
  let mp := (5 * doy + 2) / 153
  let d := doy - (153 * mp + 2) / 5 + 1
  let m := if mp < 10 then mp + 3 else mp - 9
  let y := era * 400 + yoe + (if m ≤ 2 then 1 else 0)
  (y, m, d)

/-- Decimal digits of a natural number, zero-padded to a given width. -/
def padNat (width n : Nat) : PyStr :=
  let ds := (toString n).data
  List.replicate (width - ds.length) '0' ++ ds

/-- `datetime.isoformat()` of a UTC-aware instant (microsecond 0), given in
seconds since the epoch: `YYYY-MM-DDTHH:MM:SS+00:00`. -/
def isoOfSec (t : Int) : PyStr :=
  let sod : Nat := (t.emod 86400).toNat
  let ymd := civilFromDays (t.ediv 86400)
  padNat 4 ymd.1.toNat ++ "-".data ++ padNat 2 ymd.2.1 ++ "-".data ++ padNat 2 ymd.2.2
    ++ "T".data ++ padNat 2 (sod / 3600) ++ ":".data ++ padNat 2 (sod % 3600 / 60)
    ++ ":".data ++ padNat 2 (sod % 60) ++ "+00:00".data

/-- `strftime('%Y-%m-%d')` of a UTC instant in seconds since the epoch. -/
def dateStrOfSec (t : Int) : PyStr :=
  let ymd := civilFromDays (t.ediv 86400)
  padNat 4 ymd.1.toNat ++ "-".data ++ padNat 2 ymd.2.1 ++ "-".data ++ padNat 2 ymd.2.2

/-- A programme dictionary as built by `build_epg`.  Redbee programmes carry
no `category`/`live`/`premiere` keys; a missing key read through `.get` is
falsy in Python exactly like `""`/`False`, and the two are interchangeable
everywhere the program reads these fields, so absence is modelled as
`[]`/`false`. -/
structure Programme where
  start : PyStr
  stop : PyStr
  title : PyStr
  desc : PyStr
  season : PyStr
  episode : PyStr
  images : List PyStr
  source : PyStr
  category : PyStr
  live : Bool
  premiere : Bool
deriving DecidableEq

/-- One value of `channels_data`: channel title, image URLs, programme list. -/
structure Channel where
  title : PyStr
  images : List PyStr
  programmes : List Programme
deriving DecidableEq

/-- The `channels_data` dictionary: insertion-ordered association list. -/
abbrev CD := List (PyStr × Channel)

/-- Dictionary read (`channels_data[k]`), first occurrence. -/
def lookupC (cd : CD) (k : PyStr) : Option Channel :=
  match cd with
  | [] => none
  | (k', c) :: rest => if k' = k then some c else lookupC rest k

/-- Dictionary write (`channels_data[k] = v`): replace the value at an
existing key in place, else append a new entry (Python dict semantics). -/
def setC (cd : CD) (k : PyStr) (v : Channel) : CD :=
  match cd with
  | [] => [(k, v)]
  | (k', c) :: rest => if k' = k then (k, v) :: rest else (k', c) :: setC rest k v

/-- The duplicate test of `build_epg` (lines 201–202): same `start` text and
case-insensitively equal titles — the MergeKey identity. -/
abbrev sameKey (a b : Programme) : Prop :=
  a.start = b.start ∧ pyLower a.title = pyLower b.title

/-- The in-place enrichment of an existing programme with syn.is data
(`build_epg` lines 203–209): copy `category` when the existing one is falsy
and the new one is truthy; copy `live`/`premiere` when the existing flag is
falsy. -/
def enrich (e p : Programme) : Programme :=
  let e1 := if e.category = [] ∧ p.category ≠ [] then { e with category := p.category } else e
  let e2 := if e1.live = false then { e1 with live := p.live } else e1
  if e2.premiere = false then { e2 with premiere := p.premiere } else e2

/-- The duplicate scan of `build_epg` (lines 198–214): enrich the first
programme with the same MergeKey in place, else append the new programme. -/
def mergeProg (progs : List Programme) (p : Programme) : List Programme :=
  match progs with
  | [] => [p]
  | e :: rest => if sameKey e p then enrich e p :: rest else e :: mergeProg rest p

/-- One raw syn.is schedule entry (the `prog_data` dict).  Keys read with a
falsy default are modelled as the plain value (`[]`/`false` = absent);
`midill` and `slotlengd` keep their defaults explicit because the program
substitutes a non-falsy default (`slug` / `"01:00"`). -/
structure SynProg where
  midill : Option PyStr
  midill_heiti : PyStr
  upphaf : PyStr
  slotlengd : Option PyStr
  isltitill : PyStr
  titill : PyStr
  lysing : PyStr
  seria : PyStr
  thattur : PyStr
  flokkur : PyStr
  beint : Bool
  frumsyning : Bool
deriving DecidableEq

/-- The programme dict built from one syn.is entry (`build_epg` lines
179–196).  `cet` is the end-time computation `calculate_end_time` acting on
the ISO text (its arithmetic content is verified separately on the instant
model); `str(...)` of the already-textual `seria`/`thattur` is the
identity. -/
def synProgramme (cet : PyStr → PyStr → PyStr) (pd : SynProg) : Programme :=
  let start_time := pd.upphaf
  let end_time := cet start_time (pd.slotlengd.getD "01:00".data)
  { start := format_syn_date start_time
    stop := format_syn_date end_time
    title := if pd.isltitill ≠ [] then pd.isltitill else pd.titill
    desc := pd.lysing
    season := pd.seria
    episode := pd.thattur
    images := []
    source := "syn".data
    category := pd.flokkur
    live := pd.beint
    premiere := pd.frumsyning }

/-- Processing of one syn.is entry inside the date loop (`build_epg` lines
170–214): derive the channel key from the entry's own `midill` (defaulting to
the fetched slug), optionally overwrite the channel title with
`midill_heiti`, then run the duplicate scan.  A key absent from
`channels_data` raises `KeyError` (modelled as `.error` carrying the
unchanged state, which the phase-level `except` will keep). -/
def synProgStep (cet : PyStr → PyStr → PyStr) (slug : PyStr) (cd : CD) (pd : SynProg) :
    Except CD CD :=
  let channel_slug := normalize_channel_slug (pd.midill.getD slug) "syn".data
  match lookupC cd channel_slug with
  | none => .error cd
  | some ch =>
    let ch := if pd.midill_heiti ≠ [] then { ch with title := pd.midill_heiti } else ch
    let p := synProgramme cet pd
    .ok (setC cd channel_slug { ch with programmes := mergeProg ch.programmes p })

/-- The `for prog_data in syn_programmes` loop over one fetched day. -/
def synProgsFold (cet : PyStr → PyStr → PyStr) (slug : PyStr) (cd : CD) :
    List SynProg → Except CD CD
  | [] => .ok cd
  | pd :: rest =>
    match synProgStep cet slug cd pd with
    | .error e => .error e
    | .ok cd' => synProgsFold cet slug cd' rest

/-- The `for date in dates_to_fetch` loop (`build_epg` lines 167–214),
threading `has_programmes` (set as soon as any entry of a day is seen). -/
def synDatesLoop (cet : PyStr → PyStr → PyStr) (slug : PyStr) :
    List (List SynProg) → CD → Bool → Except CD (CD × Bool)
  | [], cd, hasP => .ok (cd, hasP)
  | ps :: rest, cd, hasP =>
    let hasP := hasP || !ps.isEmpty
    match synProgsFold cet slug cd ps with
    | .error e => .error e
    | .ok cd' => synDatesLoop cet slug rest cd' hasP

/-- The placeholder synthesis at the end of one slug's iteration
(`build_epg` lines 216–232) is split into the `placeholder_programme` dict
literal (lines 219–231) and `synPlaceholderStep`: when the slug's fetches
produced no entries (`hasP = false`) and the channel's programme list is
still empty, append exactly one placeholder programme spanning `now` to
`now + 24h`.  Reading `channels_data[normalized_slug]` raises `KeyError` if
the key is absent (unreachable in `build_epg`, which seeds the key first). -/
def placeholder_programme (now : Int) : Programme :=
  { start := format_date (isoOfSec now ++ "Z".data)
    stop := format_date (isoOfSec (now + 86400) ++ "Z".data)
    title := "No programming information available".data
    desc := "No programme schedule is currently available for this channel.".data
    season := []
    episode := []
    images := []
    source := "placeholder".data
    category := "Information".data
    live := false
    premiere := false }

/-- See the doc comment on `placeholder_programme` above. -/
def synPlaceholderStep (now : Int) (normalized_slug : PyStr) (cd' : CD) (hasP : Bool) :
    Except CD CD :=
  match lookupC cd' normalized_slug with
  | none => .error cd'
  | some ch =>
    if !hasP && ch.programmes.isEmpty then
      .ok (setC cd' normalized_slug
        { ch with programmes := ch.programmes ++ [placeholder_programme now] })
    else .ok cd'

/-- Processing of one syn.is channel slug (`build_epg` lines 153–232): seed
the normalized key if new (title = uppercased raw slug), fold all fetched
days, then run the placeholder synthesis.  `now` is the current UTC instant
in seconds. -/
def synSlugStep (cet : PyStr → PyStr → PyStr) (now : Int) (cd : CD) (slug : PyStr)
    (progLists : List (List SynProg)) : Except CD CD :=
  let normalized_slug := normalize_channel_slug slug "syn".data
  let cd :=
    match lookupC cd normalized_slug with
    | none => setC cd normalized_slug ⟨pyUpper slug, [], []⟩
    | some _ => cd
  match synDatesLoop cet slug progLists cd false with
  | .error e => .error e
  | .ok (cd', hasP) => synPlaceholderStep now normalized_slug cd' hasP

/-- The `for slug in syn_channels` loop with the surrounding `try`: a raised
exception ends the phase, keeping the dictionary state accumulated so far. -/
def synPhaseE (cet : PyStr → PyStr → PyStr) (now : Int) :
    List (PyStr × List (List SynProg)) → CD → Except CD CD
  | [], cd => .ok cd
  | (slug, pls) :: rest, cd =>
    match synSlugStep cet now cd slug pls with
    | .error e => .error e
    | .ok cd' => synPhaseE cet now rest cd'

/-- The syn.is enhancement phase of `build_epg` (lines 141–236): the
`except` at the end swallows the exception, so the phase always yields a
dictionary. -/
def synPhase (cet : PyStr → PyStr → PyStr) (now : Int)
    (pairs : List (PyStr × List (List SynProg))) (cd : CD) : CD :=
  match synPhaseE cet now pairs cd with
  | .error e => e
  | .ok cd' => cd'

/-- One asset of the Redbee per-channel EPG JSON. -/
structure RedAsset where
  startTime : PyStr
  endTime : PyStr
  title : PyStr
  description : PyStr
  images : List PyStr
deriving DecidableEq

/-- One entry of the Redbee channel listing together with the outcomes of
the two per-channel fetches `build_epg` performs for it: `epgUrl` is the
result of `get_epg_url(fetch_json(comp_url))` (`.error` = the request
raised, `.ok none` = no matching component), and `assets` is the result of
`fetch_json(BASE_URL + epg_url)` (consulted only when an EPG URL exists). -/
structure RedChannel where
  slug : PyStr
  title : PyStr
  images : List PyStr
  epgUrl : Except Unit (Option PyStr)
  assets : Except Unit (List RedAsset)

/-- The programme dict built from one Redbee asset (`build_epg` lines
122–135).  The dict has no `category`/`live`/`premiere` keys (falsy reads),
modelled as `[]`/`false`. -/
def redbeeProgramme (a : RedAsset) : Programme :=
  let tse := _parse_title a.title
  { start := format_date a.startTime
    stop := format_date a.endTime
    title := tse.1
    desc := a.description
    season := tse.2.1
    episode := tse.2.2
    images := a.images
    source := "redbee".data
    category := []
    live := false
    premiere := false }

/-- The `for ch in outer.get("channels")` loop of `build_epg` (lines
103–135).  The whole loop sits inside one `try`, so a raised per-channel
fetch ends the loop: the channels already processed are kept and the
remaining ones are never visited.  `ok none` for the EPG URL only logs and
`continue`s. -/
def redbeeLoop : List RedChannel → CD → CD
  | [], cd => cd
  | ch :: rest, cd =>
    let slug := normalize_channel_slug ch.slug "redbee".data
    let cd := setC cd slug ⟨ch.title, ch.images, []⟩
    match ch.epgUrl with
    | .error _ => cd
    | .ok none => redbeeLoop rest cd
    | .ok (some _) =>
      match ch.assets with
      | .error _ => cd
      | .ok assets =>
        redbeeLoop rest (setC cd slug ⟨ch.title, ch.images, assets.map redbeeProgramme⟩)

/-- The Redbee phase of `build_epg` (lines 94–139): a failed top-level
listing fetch is caught and leaves `channels_data` empty. -/
def redbeePhase (outer : Except Unit (List RedChannel)) : CD :=
  match outer with
  | .error _ => []
  | .ok chs => redbeeLoop chs []

/-- `fetch_syn_channels` from `main.py`: any exception is caught and an
empty list returned. -/
def fetch_syn_channels (r : Except Unit (List PyStr)) : List PyStr :=
  match r with
  | .error _ => []
  | .ok l => l

/-- `fetch_syn_epg` from `main.py`: any exception for one (slug, date) unit
is caught and an empty list returned. -/
def fetch_syn_epg (r : Except Unit (List SynProg)) : List SynProg :=
  match r with
  | .error _ => []
  | .ok l => l

/-- The merged `channels_data` computed by `build_epg` (lines 88–236), with
the network as input: `outer` is the Redbee listing fetch, `synChannelsRaw`
the syn.is channel-list fetch, and `synFetch slug date` the per-unit syn.is
EPG fetch.  `dates_to_fetch` is the 7-day window starting at `now`. -/
def build_epg (cet : PyStr → PyStr → PyStr) (now : Int)
    (outer : Except Unit (List RedChannel))
    (synChannelsRaw : Except Unit (List PyStr))
    (synFetch : PyStr → PyStr → Except Unit (List SynProg)) : CD :=
  let cd := redbeePhase outer
  let syn_channels := fetch_syn_channels synChannelsRaw
  let dates_to_fetch := (List.range 7).map (fun i => dateStrOfSec (now + 86400 * (i : Int)))
  synPhase cet now
    (syn_channels.map (fun slug =>
      (slug, dates_to_fetch.map (fun d => fetch_syn_epg (synFetch slug d))))) cd

/-- Python string comparison (`<=` on `str`, used by `sorted(..., key=...)`):
lexicographic by code point. -/
def lexLe : PyStr → PyStr → Bool
  | [], _ => true
  | _ :: _, [] => false
  | a :: as, b :: bs => if a < b then true else if b < a then false else lexLe as bs

/-- Stable ascending insertion by start key: the embedding of Python's
stable `sorted(programmes, key=lambda x: x["start"])` (any stable ascending
sort by key is extensionally the same function). -/
def insertSortedP (p : Programme) : List Programme → List Programme
  | [] => [p]
  | q :: qs => if lexLe p.start q.start then p :: q :: qs else q :: insertSortedP p qs

/-- The `sorted_programmes` computation of `build_epg` (lines 245–247). -/
def pySortByStart : List Programme → List Programme
  | [] => []
  | p :: ps => insertSortedP p (pySortByStart ps)

/-- One rendered `<channel>` block plus its `<programme>` elements, before
serialization: id, display name, optional first icon, chronologically
sorted programmes (`build_epg` lines 238–274; XML entity escaping is the
serializer's concern and does not reorder anything). -/
structure RenderedChannel where
  id : PyStr
  displayName : PyStr
  icon : Option PyStr
  programmes : List Programme
deriving DecidableEq

/-- The document assembly loop of `build_epg` (lines 238–274). -/
def assembleDoc (cd : CD) : List RenderedChannel :=
  cd.map (fun kc => ⟨kc.1, kc.2.title, kc.2.images.head?, pySortByStart kc.2.programmes⟩)

example :
    synPhase (fun s _ => s) 0
      [("a".data, [[], []])] [] =
      [("a".data, ⟨"A".data, [],
        [{ start := format_date (isoOfSec 0 ++ "Z".data)
           stop := format_date (isoOfSec 86400 ++ "Z".data)
           title := "No programming information available".data
           desc := "No programme schedule is currently available for this channel.".data
           season := [], episode := [], images := [], source := "placeholder".data
           category := "Information".data, live := false, premiere := false }]⟩)] := by decide

/-! ### Dictionary lemmas -/

theorem lookupC_setC_self (cd : CD) (k : PyStr) (v : Channel) :
    lookupC (setC cd k v) k = some v := by
  induction cd with
  | nil => simp [setC, lookupC]
  | cons e rest ih =>
    obtain ⟨k', c⟩ := e
    by_cases h : k' = k
    · simp [setC, lookupC, h]
    · simp [setC, lookupC, h, ih]

theorem lookupC_setC_ne (cd : CD) {k k' : PyStr} (v : Channel) (h : k' ≠ k) :
    lookupC (setC cd k v) k' = lookupC cd k' := by
  induction cd with
  | nil =>
    simp only [setC, lookupC]
    rw [if_neg (Ne.symm h)]
  | cons e rest ih =>
    obtain ⟨k'', c⟩ := e
    by_cases hk : k'' = k
    · subst hk
      simp only [setC, eq_self_iff_true, if_true, lookupC]
      rw [if_neg (Ne.symm h), if_neg (Ne.symm h)]
    · simp only [setC, if_neg hk, lookupC]
      by_cases hk' : k'' = k'
      · rw [if_pos hk', if_pos hk']
      · rw [if_neg hk', if_neg hk', ih]

/-! ### `enrich` and `mergeProg` lemmas -/

theorem enrich_start (e p : Programme) : (enrich e p).start = e.start := by
  simp only [enrich]; split_ifs <;> rfl

theorem enrich_stop (e p : Programme) : (enrich e p).stop = e.stop := by
  simp only [enrich]; split_ifs <;> rfl

theorem enrich_title (e p : Programme) : (enrich e p).title = e.title := by
  simp only [enrich]; split_ifs <;> rfl

theorem enrich_desc (e p : Programme) : (enrich e p).desc = e.desc := by
  simp only [enrich]; split_ifs <;> rfl

theorem enrich_season (e p : Programme) : (enrich e p).season = e.season := by
  simp only [enrich]; split_ifs <;> rfl

theorem enrich_episode (e p : Programme) : (enrich e p).episode = e.episode := by
  simp only [enrich]; split_ifs <;> rfl

theorem enrich_category_populated (e p : Programme) (h : e.category ≠ []) :
    (enrich e p).category = e.category := by
  simp only [enrich]; split_ifs <;> simp_all

theorem enrich_category_unset (e p : Programme) (h : e.category = []) :
    (enrich e p).category = p.category := by
  simp only [enrich]
  split_ifs <;> simp_all

theorem enrich_live_true (e p : Programme) (h : e.live = true) :
    (enrich e p).live = true := by
  simp only [enrich]; split_ifs <;> simp_all

theorem enrich_live_false (e p : Programme) (h : e.live = false) :
    (enrich e p).live = p.live := by
  simp only [enrich]; split_ifs <;> simp_all

theorem enrich_premiere_true (e p : Programme) (h : e.premiere = true) :
    (enrich e p).premiere = true := by
  simp only [enrich]; split_ifs <;> simp_all

theorem enrich_premiere_false (e p : Programme) (h : e.premiere = false) :
    (enrich e p).premiere = p.premiere := by
  simp only [enrich]; split_ifs <;> simp_all

theorem sameKey_enrich_left (e p b : Programme) :
    sameKey (enrich e p) b ↔ sameKey e b := by
  simp [sameKey, enrich_start, enrich_title]

theorem sameKey_enrich_right (b e p : Programme) :
    sameKey b (enrich e p) ↔ sameKey b e := by
  simp [sameKey, enrich_start, enrich_title]

theorem mergeProg_ne_nil (l : List Programme) (p : Programme) : mergeProg l p ≠ [] := by
  cases l with
  | nil => simp [mergeProg]
  | cons e rest => simp only [mergeProg]; split <;> simp

theorem mem_mergeProg {l : List Programme} {p x : Programme} (h : x ∈ mergeProg l p) :
    x = p ∨ ∃ y ∈ l, x = y ∨ x = enrich y p := by
  induction l with
  | nil =>
    simp [mergeProg] at h
    exact Or.inl h
  | cons e rest ih =>
    by_cases hk : sameKey e p
    · simp only [mergeProg, if_pos hk] at h
      rcases List.mem_cons.mp h with h1 | h2
      · exact Or.inr ⟨e, by simp, Or.inr h1⟩
      · exact Or.inr ⟨x, by simp [h2], Or.inl rfl⟩
    · simp only [mergeProg, if_neg hk] at h
      rcases List.mem_cons.mp h with h1 | h2
      · exact Or.inr ⟨e, by simp, Or.inl h1⟩
      · rcases ih h2 with h3 | ⟨y, hy, h4⟩
        · exact Or.inl h3
        · exact Or.inr ⟨y, by simp [hy], h4⟩

/-- Pairwise MergeKey distinctness of a programme list. -/
def dedupKeys (l : List Programme) : Prop := l.Pairwise (fun a b => ¬ sameKey a b)

theorem mergeProg_dedup {l : List Programme} (p : Programme) (h : dedupKeys l) :
    dedupKeys (mergeProg l p) := by
  induction l with
  | nil => simp [mergeProg, dedupKeys]
  | cons e rest ih =>
    rcases List.pairwise_cons.mp h with ⟨he, hrest⟩
    by_cases hk : sameKey e p
    · simp only [dedupKeys, mergeProg, if_pos hk]
      refine List.pairwise_cons.mpr ⟨?_, hrest⟩
      intro b hb
      simpa [sameKey_enrich_left] using he b hb
    · simp only [dedupKeys, mergeProg, if_neg hk]
      refine List.pairwise_cons.mpr ⟨?_, ih hrest⟩
      intro b hb
      rcases mem_mergeProg hb with h1 | ⟨y, hy, h2⟩
      · exact h1 ▸ hk
      · rcases h2 with h2 | h2
        · exact h2 ▸ he y hy
        · subst h2
          simpa [sameKey_enrich_right] using he y hy

theorem mergeProg_found (p : Programme) :
    ∀ (pre : List Programme) (e : Programme) (suf : List Programme),
      (∀ q ∈ pre, ¬ sameKey q p) → sameKey e p →
      mergeProg (pre ++ e :: suf) p = pre ++ enrich e p :: suf := by
  intro pre
  induction pre with
  | nil =>
    intro e suf _ he
    simp [mergeProg, if_pos he]
  | cons q rest ih =>
    intro e suf hq he
    simp only [List.cons_append, mergeProg, List.append_eq]
    rw [if_neg (hq q (by simp))]
    rw [ih e suf (fun x hx => hq x (by simp [hx])) he]

/-! ### Phase-level invariant machinery -/

/-- The dictionary state carried by a phase computation, whether it finished
normally or raised. -/
def stateOf : Except CD CD → CD
  | .ok cd => cd
  | .error cd => cd

/-- State carried by the date loop. -/
def stateOfD : Except CD (CD × Bool) → CD
  | .ok cdb => cdb.1
  | .error cd => cd

theorem synPhase_eq_stateOf (cet : PyStr → PyStr → PyStr) (now : Int)
    (pairs : List (PyStr × List (List SynProg))) (cd : CD) :
    synPhase cet now pairs cd = stateOf (synPhaseE cet now pairs cd) := by
  unfold synPhase
  cases synPhaseE cet now pairs cd <;> rfl

theorem synProgStep_of_lookup_none (cet : PyStr → PyStr → PyStr) (slug : PyStr)
    (cd : CD) (pd : SynProg)
    (hl : lookupC cd (normalize_channel_slug (pd.midill.getD slug) "syn".data) = none) :
    synProgStep cet slug cd pd = .error cd := by
  simp only [synProgStep]
  rw [hl]

theorem synProgStep_of_lookup_some (cet : PyStr → PyStr → PyStr) (slug : PyStr)
    (cd : CD) (pd : SynProg) (ch : Channel)
    (hl : lookupC cd (normalize_channel_slug (pd.midill.getD slug) "syn".data) = some ch) :
    synProgStep cet slug cd pd =
      .ok (setC cd (normalize_channel_slug (pd.midill.getD slug) "syn".data)
        { (if pd.midill_heiti ≠ [] then { ch with title := pd.midill_heiti } else ch) with
          programmes :=
            mergeProg (if pd.midill_heiti ≠ [] then { ch with title := pd.midill_heiti } else ch).programmes
              (synProgramme cet pd) }) := by
  simp only [synProgStep]
  rw [hl]

theorem lookupC_isSome_setC {cd : CD} {j : PyStr} {v : Channel}
    (hj : (lookupC cd j).isSome = true) (k : PyStr) :
    (lookupC (setC cd j v) k).isSome = (lookupC cd k).isSome := by
  by_cases hk : k = j
  · subst hk
    rw [lookupC_setC_self]
    exact (Option.isSome_some).symm ▸ hj.symm
  · rw [lookupC_setC_ne _ _ hk]

/-! ### MergeKey distinctness invariant (C3 support) -/

/-- MergeKey distinctness at every channel of the dictionary. -/
def dedupAll (cd : CD) : Prop := ∀ k ch, lookupC cd k = some ch → dedupKeys ch.programmes

theorem dedupAll_setC {cd : CD} {k : PyStr} {v : Channel}
    (h : dedupAll cd) (hv : dedupKeys v.programmes) : dedupAll (setC cd k v) := by
  intro k' ch hch
  by_cases hk : k' = k
  · subst hk
    rw [lookupC_setC_self] at hch
    cases hch
    exact hv
  · rw [lookupC_setC_ne _ _ hk] at hch
    exact h _ _ hch

theorem dedupAll_synProgStep (cet : PyStr → PyStr → PyStr) (slug : PyStr) (pd : SynProg)
    {cd : CD} (h : dedupAll cd) : dedupAll (stateOf (synProgStep cet slug cd pd)) := by
  cases hl : lookupC cd (normalize_channel_slug (pd.midill.getD slug) "syn".data) with
  | none =>
    rw [synProgStep_of_lookup_none cet slug cd pd hl]
    exact h
  | some ch =>
    rw [synProgStep_of_lookup_some cet slug cd pd ch hl]
    refine dedupAll_setC h ?_
    have hp : (if pd.midill_heiti ≠ [] then { ch with title := pd.midill_heiti } else ch).programmes
        = ch.programmes := by split <;> rfl
    simp only [hp]
    exact mergeProg_dedup _ (h _ _ hl)

theorem dedupAll_synProgsFold (cet : PyStr → PyStr → PyStr) (slug : PyStr)
    (ps : List SynProg) : ∀ {cd : CD}, dedupAll cd →
    dedupAll (stateOf (synProgsFold cet slug cd ps)) := by
  induction ps with
  | nil =>
    intro cd h
    simpa [synProgsFold, stateOf] using h
  | cons pd rest ih =>
    intro cd h
    simp only [synProgsFold]
    cases hstep : synProgStep cet slug cd pd with
    | error e =>
      have := dedupAll_synProgStep cet slug pd h
      rw [hstep] at this
      simpa [stateOf] using this
    | ok cd' =>
      have h' : dedupAll cd' := by
        have := dedupAll_synProgStep cet slug pd h
        rw [hstep] at this
        simpa [stateOf] using this
      simpa [stateOf] using ih h'

theorem dedupAll_synDatesLoop (cet : PyStr → PyStr → PyStr) (slug : PyStr)
    (pls : List (List SynProg)) : ∀ {cd : CD} (hasP : Bool), dedupAll cd →
    dedupAll (stateOfD (synDatesLoop cet slug pls cd hasP)) := by
  induction pls with
  | nil =>
    intro cd hasP h
    simpa [synDatesLoop, stateOfD] using h
  | cons ps rest ih =>
    intro cd hasP h
    simp only [synDatesLoop]
    cases hstep : synProgsFold cet slug cd ps with
    | error e =>
      have := dedupAll_synProgsFold cet slug ps h
      rw [hstep] at this
      simpa [stateOf, stateOfD] using this
    | ok cd' =>
      have h' : dedupAll cd' := by
        have := dedupAll_synProgsFold cet slug ps h
        rw [hstep] at this
        simpa [stateOf] using this
      simpa [stateOfD] using ih _ h'

theorem synPlaceholderStep_of_lookup_none {cd' : CD} {nslug : PyStr} (now : Int) (hasP : Bool)
    (hl : lookupC cd' nslug = none) :
    synPlaceholderStep now nslug cd' hasP = .error cd' := by
  simp only [synPlaceholderStep]
  rw [hl]

theorem synPlaceholderStep_fire {cd' : CD} {nslug : PyStr} {ch : Channel} (now : Int)
    {hasP : Bool} (hl : lookupC cd' nslug = some ch)
    (hc : (!hasP && ch.programmes.isEmpty) = true) :
    synPlaceholderStep now nslug cd' hasP =
      .ok (setC cd' nslug { ch with programmes := ch.programmes ++ [placeholder_programme now] }) := by
  simp only [synPlaceholderStep]
  rw [hl]
  exact if_pos hc

theorem synPlaceholderStep_skip {cd' : CD} {nslug : PyStr} {ch : Channel} (now : Int)
    {hasP : Bool} (hl : lookupC cd' nslug = some ch)
    (hc : ¬ (!hasP && ch.programmes.isEmpty) = true) :
    synPlaceholderStep now nslug cd' hasP = .ok cd' := by
  simp only [synPlaceholderStep]
  rw [hl]
  exact if_neg hc

theorem dedupAll_synPlaceholderStep (now : Int) (nslug : PyStr) {cd' : CD} (hasP : Bool)
    (h2 : dedupAll cd') : dedupAll (stateOf (synPlaceholderStep now nslug cd' hasP)) := by
  cases hl2 : lookupC cd' nslug with
  | none =>
    rw [synPlaceholderStep_of_lookup_none now hasP hl2]
    exact h2
  | some ch =>
    by_cases hcond : (!hasP && ch.programmes.isEmpty) = true
    · rw [synPlaceholderStep_fire now hl2 hcond]
      refine dedupAll_setC h2 ?_
      have hcond' := hcond
      rw [Bool.and_eq_true] at hcond'
      have hemp : ch.programmes = [] := List.isEmpty_iff.mp hcond'.2
      simp [dedupKeys, hemp]
    · rw [synPlaceholderStep_skip now hl2 hcond]
      exact h2

theorem dedupAll_synSlugStep (cet : PyStr → PyStr → PyStr) (now : Int) (slug : PyStr)
    (pls : List (List SynProg)) {cd : CD} (h : dedupAll cd) :
    dedupAll (stateOf (synSlugStep cet now cd slug pls)) := by
  simp only [synSlugStep]
  have tail : ∀ cd1 : CD, dedupAll cd1 →
      dedupAll (stateOf (match synDatesLoop cet slug pls cd1 false with
        | .error e => .error e
        | .ok (cd', hasP) =>
          synPlaceholderStep now (normalize_channel_slug slug "syn".data) cd' hasP)) := by
    intro cd1 h1
    cases hd : synDatesLoop cet slug pls cd1 false with
    | error e =>
      have := dedupAll_synDatesLoop cet slug pls false h1
      rw [hd] at this
      exact this
    | ok cdb =>
      obtain ⟨cd', hasP⟩ := cdb
      have h2 : dedupAll cd' := by
        have := dedupAll_synDatesLoop cet slug pls false h1
        rw [hd] at this
        exact this
      exact dedupAll_synPlaceholderStep now _ hasP h2
  cases h0 : lookupC cd (normalize_channel_slug slug "syn".data) with
  | none =>
    exact tail _ (dedupAll_setC h (by simp [dedupKeys]))
  | some ch0 =>
    exact tail _ h

theorem dedupAll_synPhaseE (cet : PyStr → PyStr → PyStr) (now : Int)
    (pairs : List (PyStr × List (List SynProg))) : ∀ {cd : CD}, dedupAll cd →
    dedupAll (stateOf (synPhaseE cet now pairs cd)) := by
  induction pairs with
  | nil =>
    intro cd h
    simpa [synPhaseE, stateOf] using h
  | cons sp rest ih =>
    intro cd h
    obtain ⟨slug, pls⟩ := sp
    simp only [synPhaseE]
    cases hstep : synSlugStep cet now cd slug pls with
    | error e =>
      have := dedupAll_synSlugStep cet now slug pls h
      rw [hstep] at this
      simpa [stateOf] using this
    | ok cd' =>
      have h' : dedupAll cd' := by
        have := dedupAll_synSlugStep cet now slug pls h
        rw [hstep] at this
        simpa [stateOf] using this
      simpa [stateOf] using ih h'

theorem dedupAll_synPhase (cet : PyStr → PyStr → PyStr) (now : Int)
    (pairs : List (PyStr × List (List SynProg))) {cd : CD} (h : dedupAll cd) :
    dedupAll (synPhase cet now pairs cd) := by
  rw [synPhase_eq_stateOf]
  exact dedupAll_synPhaseE cet now pairs h

/-! ### Non-empty-programme-list invariant (C1/C5 support) -/

/-- Key `k` resolves to a channel with a non-empty programme list. -/
def keyNonempty (cd : CD) (k : PyStr) : Prop :=
  ∃ ch, lookupC cd k = some ch ∧ ch.programmes ≠ []

theorem keyNonempty_setC {cd : CD} {k j : PyStr} {v : Channel}
    (h : keyNonempty cd k) (hv : k = j → v.programmes ≠ []) : keyNonempty (setC cd j v) k := by
  by_cases hk : k = j
  · subst hk
    exact ⟨v, lookupC_setC_self cd k v, hv rfl⟩
  · obtain ⟨ch, hl, hne⟩ := h
    exact ⟨ch, by rw [lookupC_setC_ne _ _ hk]; exact hl, hne⟩

theorem keyNonempty_synProgStep (cet : PyStr → PyStr → PyStr) (slug : PyStr) (pd : SynProg)
    {cd : CD} {k : PyStr} (h : keyNonempty cd k) :
    keyNonempty (stateOf (synProgStep cet slug cd pd)) k := by
  cases hl : lookupC cd (normalize_channel_slug (pd.midill.getD slug) "syn".data) with
  | none =>
    rw [synProgStep_of_lookup_none cet slug cd pd hl]
    exact h
  | some ch =>
    rw [synProgStep_of_lookup_some cet slug cd pd ch hl]
    exact keyNonempty_setC h (fun _ => mergeProg_ne_nil _ _)

theorem keyNonempty_synProgsFold (cet : PyStr → PyStr → PyStr) (slug : PyStr)
    (ps : List SynProg) : ∀ {cd : CD} {k : PyStr}, keyNonempty cd k →
    keyNonempty (stateOf (synProgsFold cet slug cd ps)) k := by
  induction ps with
  | nil =>
    intro cd k h
    simpa [synProgsFold, stateOf] using h
  | cons pd rest ih =>
    intro cd k h
    simp only [synProgsFold]
    cases hstep : synProgStep cet slug cd pd with
    | error e =>
      have := keyNonempty_synProgStep cet slug pd h
      rw [hstep] at this
      simpa [stateOf] using this
    | ok cd' =>
      have h' : keyNonempty cd' k := by
        have := keyNonempty_synProgStep cet slug pd h
        rw [hstep] at this
        simpa [stateOf] using this
      simpa [stateOf] using ih h'

theorem keyNonempty_synDatesLoop (cet : PyStr → PyStr → PyStr) (slug : PyStr)
    (pls : List (List SynProg)) : ∀ {cd : CD} (hasP : Bool) {k : PyStr}, keyNonempty cd k →
    keyNonempty (stateOfD (synDatesLoop cet slug pls cd hasP)) k := by
  induction pls with
  | nil =>
    intro cd hasP k h
    simpa [synDatesLoop, stateOfD] using h
  | cons ps rest ih =>
    intro cd hasP k h
    simp only [synDatesLoop]
    cases hstep : synProgsFold cet slug cd ps with
    | error e =>
      have := keyNonempty_synProgsFold cet slug ps h
      rw [hstep] at this
      simpa [stateOf, stateOfD] using this
    | ok cd' =>
      have h' : keyNonempty cd' k := by
        have := keyNonempty_synProgsFold cet slug ps h
        rw [hstep] at this
        simpa [stateOf] using this
      simpa [stateOfD] using ih _ h'

theorem keyNonempty_synPlaceholderStep (now : Int) (nslug : PyStr) {cd' : CD} (hasP : Bool)
    {k : PyStr} (h : keyNonempty cd' k) :
    keyNonempty (stateOf (synPlaceholderStep now nslug cd' hasP)) k := by
  cases hl2 : lookupC cd' nslug with
  | none =>
    rw [synPlaceholderStep_of_lookup_none now hasP hl2]
    exact h
  | some ch =>
    by_cases hcond : (!hasP && ch.programmes.isEmpty) = true
    · rw [synPlaceholderStep_fire now hl2 hcond]
      exact keyNonempty_setC h (fun _ => by simp)
    · rw [synPlaceholderStep_skip now hl2 hcond]
      exact h

theorem keyNonempty_synSlugStep (cet : PyStr → PyStr → PyStr) (now : Int) (slug : PyStr)
    (pls : List (List SynProg)) {cd : CD} {k : PyStr} (h : keyNonempty cd k) :
    keyNonempty (stateOf (synSlugStep cet now cd slug pls)) k := by
  simp only [synSlugStep]
  have tail : ∀ cd1 : CD, keyNonempty cd1 k →
      keyNonempty (stateOf (match synDatesLoop cet slug pls cd1 false with
        | .error e => .error e
        | .ok (cd', hasP) =>
          synPlaceholderStep now (normalize_channel_slug slug "syn".data) cd' hasP)) k := by
    intro cd1 h1
    cases hd : synDatesLoop cet slug pls cd1 false with
    | error e =>
      have := keyNonempty_synDatesLoop cet slug pls false h1
      rw [hd] at this
      exact this
    | ok cdb =>
      obtain ⟨cd', hasP⟩ := cdb
      have h2 : keyNonempty cd' k := by
        have := keyNonempty_synDatesLoop cet slug pls false h1
        rw [hd] at this
        exact this
      exact keyNonempty_synPlaceholderStep now _ hasP h2
  cases h0 : lookupC cd (normalize_channel_slug slug "syn".data) with
  | none =>
    refine tail _ (keyNonempty_setC h (fun hk => ?_))
    subst hk
    obtain ⟨ch, hlk, _⟩ := h
    rw [h0] at hlk
    cases hlk
  | some ch0 =>
    exact tail _ h

theorem keyNonempty_synPhaseE (cet : PyStr → PyStr → PyStr) (now : Int)
    (pairs : List (PyStr × List (List SynProg))) : ∀ {cd : CD} {k : PyStr}, keyNonempty cd k →
    keyNonempty (stateOf (synPhaseE cet now pairs cd)) k := by
  induction pairs with
  | nil =>
    intro cd k h
    simpa [synPhaseE, stateOf] using h
  | cons sp rest ih =>
    intro cd k h
    obtain ⟨slug, pls⟩ := sp
    simp only [synPhaseE]
    cases hstep : synSlugStep cet now cd slug pls with
    | error e =>
      have := keyNonempty_synSlugStep cet now slug pls h
      rw [hstep] at this
      simpa [stateOf] using this
    | ok cd' =>
      have h' : keyNonempty cd' k := by
        have := keyNonempty_synSlugStep cet now slug pls h
        rw [hstep] at this
        simpa [stateOf] using this
      simpa [stateOf] using ih h'

theorem keyNonempty_synPhase (cet : PyStr → PyStr → PyStr) (now : Int)
    (pairs : List (PyStr × List (List SynProg))) {cd : CD} {k : PyStr} (h : keyNonempty cd k) :
    keyNonempty (synPhase cet now pairs cd) k := by
  rw [synPhase_eq_stateOf]
  exact keyNonempty_synPhaseE cet now pairs h

/-! ### Exact behaviour of a slug iteration whose fetches are all empty -/

theorem synDatesLoop_all_empty (cet : PyStr → PyStr → PyStr) (slug : PyStr)
    {pls : List (List SynProg)} (hpl : ∀ l ∈ pls, l = []) :
    ∀ (cd : CD) (b : Bool), synDatesLoop cet slug pls cd b = .ok (cd, b) := by
  induction pls with
  | nil => intro cd b; rfl
  | cons ps rest ih =>
    intro cd b
    have hps : ps = [] := hpl ps (by simp)
    subst hps
    simp only [synDatesLoop, List.isEmpty_nil, Bool.not_true, Bool.or_false, synProgsFold]
    exact ih (fun l hl => hpl l (by simp [hl])) cd b

theorem synSlugStep_seed_none (cet : PyStr → PyStr → PyStr) (now : Int) (cd : CD)
    (slug : PyStr) (pls : List (List SynProg))
    (h0 : lookupC cd (normalize_channel_slug slug "syn".data) = none) :
    synSlugStep cet now cd slug pls =
      (match synDatesLoop cet slug pls
          (setC cd (normalize_channel_slug slug "syn".data) ⟨pyUpper slug, [], []⟩) false with
        | .error e => .error e
        | .ok (cd', hasP) =>
          synPlaceholderStep now (normalize_channel_slug slug "syn".data) cd' hasP) := by
  simp only [synSlugStep]
  rw [h0]

theorem synSlugStep_seed_some (cet : PyStr → PyStr → PyStr) (now : Int) (cd : CD)
    (slug : PyStr) (pls : List (List SynProg)) (ch0 : Channel)
    (h0 : lookupC cd (normalize_channel_slug slug "syn".data) = some ch0) :
    synSlugStep cet now cd slug pls =
      (match synDatesLoop cet slug pls cd false with
        | .error e => .error e
        | .ok (cd', hasP) =>
          synPlaceholderStep now (normalize_channel_slug slug "syn".data) cd' hasP) := by
  simp only [synSlugStep]
  rw [h0]

theorem synSlugStep_all_empty_new (cet : PyStr → PyStr → PyStr) (now : Int) (cd : CD)
    (slug : PyStr) {pls : List (List SynProg)} (hpl : ∀ l ∈ pls, l = [])
    (h0 : lookupC cd (normalize_channel_slug slug "syn".data) = none) :
    synSlugStep cet now cd slug pls =
      .ok (setC (setC cd (normalize_channel_slug slug "syn".data) ⟨pyUpper slug, [], []⟩)
        (normalize_channel_slug slug "syn".data)
        ⟨pyUpper slug, [], [placeholder_programme now]⟩) := by
  rw [synSlugStep_seed_none cet now cd slug pls h0,
    synDatesLoop_all_empty cet slug hpl _ false]
  show synPlaceholderStep now (normalize_channel_slug slug "syn".data)
      (setC cd (normalize_channel_slug slug "syn".data) ⟨pyUpper slug, [], []⟩) false = _
  rw [synPlaceholderStep_fire now
    (lookupC_setC_self cd (normalize_channel_slug slug "syn".data) ⟨pyUpper slug, [], []⟩)
    (by rfl)]
  rfl

theorem synSlugStep_all_empty_existing_empty (cet : PyStr → PyStr → PyStr) (now : Int)
    (cd : CD) (slug : PyStr) {pls : List (List SynProg)} {ch0 : Channel}
    (hpl : ∀ l ∈ pls, l = [])
    (h0 : lookupC cd (normalize_channel_slug slug "syn".data) = some ch0)
    (he : ch0.programmes = []) :
    synSlugStep cet now cd slug pls =
      .ok (setC cd (normalize_channel_slug slug "syn".data)
        { ch0 with programmes := ch0.programmes ++ [placeholder_programme now] }) := by
  rw [synSlugStep_seed_some cet now cd slug pls ch0 h0,
    synDatesLoop_all_empty cet slug hpl cd false]
  show synPlaceholderStep now (normalize_channel_slug slug "syn".data) cd false = _
  rw [synPlaceholderStep_fire now h0 (by simp [he])]

theorem synSlugStep_all_empty_existing_nonempty (cet : PyStr → PyStr → PyStr) (now : Int)
    (cd : CD) (slug : PyStr) {pls : List (List SynProg)} {ch0 : Channel}
    (hpl : ∀ l ∈ pls, l = [])
    (h0 : lookupC cd (normalize_channel_slug slug "syn".data) = some ch0)
    (he : ch0.programmes ≠ []) :
    synSlugStep cet now cd slug pls = .ok cd := by
  rw [synSlugStep_seed_some cet now cd slug pls ch0 h0,
    synDatesLoop_all_empty cet slug hpl cd false]
  show synPlaceholderStep now (normalize_channel_slug slug "syn".data) cd false = _
  rw [synPlaceholderStep_skip now h0 (by simp [List.isEmpty_iff, he])]

theorem keyNonempty_synSlugStep_all_empty (cet : PyStr → PyStr → PyStr) (now : Int)
    (cd : CD) (slug : PyStr) {pls : List (List SynProg)} {cd1 : CD}
    (hpl : ∀ l ∈ pls, l = [])
    (hok : synSlugStep cet now cd slug pls = .ok cd1) :
    keyNonempty cd1 (normalize_channel_slug slug "syn".data) := by
  cases h0 : lookupC cd (normalize_channel_slug slug "syn".data) with
  | none =>
    rw [synSlugStep_all_empty_new cet now cd slug hpl h0] at hok
    injection hok with h
    subst h
    exact ⟨_, lookupC_setC_self _ _ _, by simp⟩
  | some ch0 =>
    by_cases he : ch0.programmes = []
    · rw [synSlugStep_all_empty_existing_empty cet now cd slug hpl h0 he] at hok
      injection hok with h
      subst h
      exact ⟨_, lookupC_setC_self _ _ _, by simp⟩
    · rw [synSlugStep_all_empty_existing_nonempty cet now cd slug hpl h0 he] at hok
      injection hok with h
      subst h
      exact ⟨ch0, h0, he⟩

theorem synPhaseE_cons_error {cet : PyStr → PyStr → PyStr} {now : Int} {slug : PyStr}
    {pls : List (List SynProg)} {rest : List (PyStr × List (List SynProg))} {cd e : CD}
    (hstep : synSlugStep cet now cd slug pls = .error e) :
    synPhaseE cet now ((slug, pls) :: rest) cd = .error e := by
  simp only [synPhaseE, hstep]

theorem synPhaseE_cons_ok {cet : PyStr → PyStr → PyStr} {now : Int} {slug : PyStr}
    {pls : List (List SynProg)} {rest : List (PyStr × List (List SynProg))} {cd cd1 : CD}
    (hstep : synSlugStep cet now cd slug pls = .ok cd1) :
    synPhaseE cet now ((slug, pls) :: rest) cd = synPhaseE cet now rest cd1 := by
  simp only [synPhaseE, hstep]

theorem synPhase_cons_ok {cet : PyStr → PyStr → PyStr} {now : Int} {slug : PyStr}
    {pls : List (List SynProg)} {rest : List (PyStr × List (List SynProg))} {cd cd1 : CD}
    (hstep : synSlugStep cet now cd slug pls = .ok cd1) :
    synPhase cet now ((slug, pls) :: rest) cd = synPhase cet now rest cd1 := by
  simp only [synPhase, synPhaseE, hstep]

theorem synProgStep_ok_presence {cet : PyStr → PyStr → PyStr} {slug : PyStr} {cd : CD}
    {pd : SynProg} {cd' : CD} (hok : synProgStep cet slug cd pd = .ok cd') (k : PyStr) :
    (lookupC cd' k).isSome = (lookupC cd k).isSome := by
  cases hl : lookupC cd (normalize_channel_slug (pd.midill.getD slug) "syn".data) with
  | none =>
    rw [synProgStep_of_lookup_none cet slug cd pd hl] at hok
    simp at hok
  | some ch =>
    rw [synProgStep_of_lookup_some cet slug cd pd ch hl] at hok
    injection hok with h
    subst h
    exact lookupC_isSome_setC (by rw [hl]; rfl) k

/-! ### Ordering lemmas for the renderer (C8 support) -/

theorem lexLe_refl (l : PyStr) : lexLe l l = true := by
  induction l with
  | nil => rfl
  | cons a as ih => simp [lexLe, lt_irrefl, ih]

theorem lexLe_total (a b : PyStr) : lexLe a b = true ∨ lexLe b a = true := by
  induction a generalizing b with
  | nil => left; rfl
  | cons x xs ih =>
    cases b with
    | nil => right; rfl
    | cons y ys =>
      rcases lt_trichotomy x y with h | h | h
      · left; simp [lexLe, h]
      · subst h
        rcases ih ys with h2 | h2
        · left; simp [lexLe, lt_irrefl, h2]
        · right; simp [lexLe, lt_irrefl, h2]
      · right; simp [lexLe, h]

theorem lexLe_trans : ∀ {a b c : PyStr},
    lexLe a b = true → lexLe b c = true → lexLe a c = true := by
  intro a
  induction a with
  | nil => intro b c _ _; rfl
  | cons x xs ih =>
    intro b c hab hbc
    cases b with
    | nil => simp [lexLe] at hab
    | cons y ys =>
      cases c with
      | nil => simp [lexLe] at hbc
      | cons z zs =>
        by_cases h1 : x < y
        · by_cases h2 : y < z
          · simp [lexLe, lt_trans h1 h2]
          · by_cases h3 : z < y
            · simp [lexLe, h2, h3] at hbc
            · have hyz : y = z := le_antisymm (not_lt.mp h3) (not_lt.mp h2)
              subst hyz
              simp [lexLe, h1]
        · by_cases h4 : y < x
          · simp [lexLe, h1, h4] at hab
          · have hxy : x = y := le_antisymm (not_lt.mp h4) (not_lt.mp h1)
            subst hxy
            simp only [lexLe, lt_irrefl, if_false] at hab ⊢
            by_cases h5 : x < z
            · simp [h5]
            · by_cases h6 : z < x
              · simp only [lexLe, h6, if_false, h5, if_true] at hbc
                exact absurd hbc (by simp)
              · have hxz : x = z := le_antisymm (not_lt.mp h6) (not_lt.mp h5)
                subst hxz
                simp only [lexLe, lt_irrefl, if_false] at hbc ⊢
                exact ih hab hbc

theorem mem_insertSortedP {p x : Programme} {l : List Programme} :
    x ∈ insertSortedP p l ↔ x = p ∨ x ∈ l := by
  induction l with
  | nil => simp [insertSortedP]
  | cons q qs ih =>
    simp only [insertSortedP]
    split
    · simp [or_comm, or_left_comm]
    · simp [ih]
      tauto

theorem sorted_insertSortedP {p : Programme} {l : List Programme}
    (h : l.Pairwise (fun x y : Programme => lexLe x.start y.start = true)) :
    (insertSortedP p l).Pairwise (fun x y : Programme => lexLe x.start y.start = true) := by
  induction l with
  | nil => simp [insertSortedP]
  | cons q qs ih =>
    rcases List.pairwise_cons.mp h with ⟨hq, hqs⟩
    by_cases hle : lexLe p.start q.start = true
    · simp only [insertSortedP, if_pos hle]
      refine List.pairwise_cons.mpr ⟨?_, h⟩
      intro b hb
      rcases List.mem_cons.mp hb with rfl | hb'
      · exact hle
      · exact lexLe_trans hle (hq b hb')
    · simp only [insertSortedP, if_neg hle]
      refine List.pairwise_cons.mpr ⟨?_, ih hqs⟩
      intro b hb
      rcases mem_insertSortedP.mp hb with rfl | hb'
      · exact (lexLe_total b.start q.start).resolve_left hle
      · exact hq b hb'

theorem sorted_pySortByStart (l : List Programme) :
    (pySortByStart l).Pairwise (fun x y : Programme => lexLe x.start y.start = true) := by
  induction l with
  | nil => simp [pySortByStart]
  | cons p ps ih => exact sorted_insertSortedP ih

theorem filter_insertSortedP (s : PyStr) (p : Programme) (l : List Programme) :
    (insertSortedP p l).filter (fun x => x.start == s) =
      (if p.start == s then p :: l.filter (fun x => x.start == s)
       else l.filter (fun x => x.start == s)) := by
  induction l with
  | nil =>
    simp only [insertSortedP, List.filter_cons, List.filter_nil]
  | cons q qs ih =>
    by_cases hle : lexLe p.start q.start = true
    · simp only [insertSortedP, if_pos hle, List.filter_cons]
    · simp only [insertSortedP, if_neg hle, List.filter_cons, ih]
      by_cases hps : (p.start == s) = true
      · have hp2 : p.start = s := beq_iff_eq.mp hps
        have hq : (q.start == s) = false := by
          apply beq_eq_false_iff_ne.mpr
          intro hqe
          exact hle (by rw [hp2, hqe]; exact lexLe_refl s)
        simp [hps, hq]
      · simp only [Bool.not_eq_true] at hps
        simp [hps]

theorem filter_pySortByStart (s : PyStr) (l : List Programme) :
    (pySortByStart l).filter (fun x => x.start == s) = l.filter (fun x => x.start == s) := by
  induction l with
  | nil => rfl
  | cons p ps ih =>
    simp only [pySortByStart, filter_insertSortedP, List.filter_cons, ih]

/-! ### Prefix helper for the title parser (C6 support) -/

theorem isPrefixOf_single {c : Char} {l : PyStr} :
    [c].isPrefixOf l = true ↔ ∃ r, l = c :: r := by
  cases l with
  | nil => simp [List.isPrefixOf]
  | cons x xs =>
    simp only [List.isPrefixOf, Bool.and_true, beq_iff_eq]
    constructor
    · intro h
      exact ⟨xs, by rw [h]⟩
    · rintro ⟨r, hr⟩
      cases hr
      rfl

/-! ### Claim theorems -/

/-- Claim C3: after the merge folds the secondary source into the channel
map, no two programme records of any channel share the same MergeKey (same
start text and case-insensitively equal title), provided the primary-seeded
map had no such duplicates per channel: a secondary programme matching an
existing one by MergeKey is merged into it in place, never appended, so
exactly one programme with that start/title remains. -/
theorem C3_merge_no_duplicate_mergekeys :
    ∀ (cet : PyStr → PyStr → PyStr) (now : Int)
      (pairs : List (PyStr × List (List SynProg))) (cd : CD),
    (∀ k ch, lookupC cd k = some ch →
      ch.programmes.Pairwise (fun a b => ¬ sameKey a b)) →
    ∀ k ch, lookupC (synPhase cet now pairs cd) k = some ch →
      ch.programmes.Pairwise (fun a b => ¬ sameKey a b) :=
  fun cet now pairs _ h => dedupAll_synPhase cet now pairs h

theorem C3_witness :
    lookupC (synPhase (fun s _ => s) 0 [("a".data, [[], []])] []) "a".data =
      some ⟨"A".data, [], [placeholder_programme 0]⟩ ∧
    ([placeholder_programme 0] : List Programme).Pairwise (fun a b => ¬ sameKey a b) :=
  ⟨by decide,
   C3_merge_no_duplicate_mergekeys (fun s _ => s) 0 [("a".data, [[], []])] []
     (by intro k ch h; simp [lookupC] at h) "a".data ⟨"A".data, [], [placeholder_programme 0]⟩
     (by decide)⟩

/-- Claim C4: when a secondary programme `p` matches an existing programme by
MergeKey — the first match `e` after a prefix with no match — the duplicate
scan enriches `e` in place: `category` is copied only when the existing one
is unset (empty), `live`/`premiere` only when the existing flag is unset
(`false`); a field the primary populated (non-empty category, true flag) is
never overwritten; identity fields are untouched; and no duplicate record is
inserted (the list keeps its length and shape). -/
theorem C4_enrichment_only_fills_unset :
    ∀ (l pre suf : List Programme) (e p : Programme),
    l = pre ++ e :: suf →
    (∀ q ∈ pre, ¬ sameKey q p) →
    sameKey e p →
    mergeProg l p = pre ++ enrich e p :: suf ∧
    (mergeProg l p).length = l.length ∧
    (enrich e p).start = e.start ∧
    (enrich e p).stop = e.stop ∧
    (enrich e p).title = e.title ∧
    (enrich e p).desc = e.desc ∧
    (e.category ≠ [] → (enrich e p).category = e.category) ∧
    (e.category = [] → (enrich e p).category = p.category) ∧
    (e.live = true → (enrich e p).live = true) ∧
    (e.live = false → (enrich e p).live = p.live) ∧
    (e.premiere = true → (enrich e p).premiere = true) ∧
    (e.premiere = false → (enrich e p).premiere = p.premiere) := by
  intro l pre suf e p hl hpre he
  subst hl
  refine ⟨mergeProg_found p pre e suf hpre he, ?_, enrich_start e p, enrich_stop e p,
    enrich_title e p, enrich_desc e p, enrich_category_populated e p,
    enrich_category_unset e p, enrich_live_true e p, enrich_live_false e p,
    enrich_premiere_true e p, enrich_premiere_false e p⟩
  rw [mergeProg_found p pre e suf hpre he]
  simp

theorem C4_witness :
    sameKey
      ⟨"20250731183000 +0000".data, "20250731190000 +0000".data, "Friends".data,
        "d".data, [], [], [], "redbee".data, [], false, false⟩
      ⟨"20250731183000 +0000".data, "x".data, "friends".data,
        "d2".data, [], [], [], "syn".data, "Sports".data, true, true⟩ ∧
    mergeProg
      [⟨"20250731183000 +0000".data, "20250731190000 +0000".data, "Friends".data,
         "d".data, [], [], [], "redbee".data, [], false, false⟩]
      ⟨"20250731183000 +0000".data, "x".data, "friends".data,
        "d2".data, [], [], [], "syn".data, "Sports".data, true, true⟩ =
      [] ++ enrich
        ⟨"20250731183000 +0000".data, "20250731190000 +0000".data, "Friends".data,
          "d".data, [], [], [], "redbee".data, [], false, false⟩
        ⟨"20250731183000 +0000".data, "x".data, "friends".data,
          "d2".data, [], [], [], "syn".data, "Sports".data, true, true⟩ :: [] :=
  ⟨by decide,
   (C4_enrichment_only_fills_unset _ [] [] _ _ rfl (by simp) (by decide)).1⟩

/-- Claim C8: every channel in the assembled document carries its programme
sequence sorted ascending by start key (Python string comparison of the
rendered start instants), and programmes with equal start keys keep their
original insertion order (stable sort): filtering the rendered sequence at
any fixed start value returns exactly the original subsequence for that
value, unchanged in order. -/
theorem C8_assembled_programmes_sorted_stable :
    ∀ (cd : CD) (k : PyStr) (ch : Channel),
    (k, ch) ∈ cd →
    (⟨k, ch.title, ch.images.head?, pySortByStart ch.programmes⟩ : RenderedChannel)
        ∈ assembleDoc cd ∧
    (pySortByStart ch.programmes).Pairwise
      (fun p q : Programme => lexLe p.start q.start = true) ∧
    ∀ s : PyStr, (pySortByStart ch.programmes).filter (fun p => p.start == s) =
      ch.programmes.filter (fun p => p.start == s) := by
  intro cd k ch hmem
  exact ⟨List.mem_map_of_mem _ hmem, sorted_pySortByStart ch.programmes,
    fun s => filter_pySortByStart s ch.programmes⟩

theorem C8_witness :
    (pySortByStart
      [⟨"20250731200000 +0000".data, "b".data, "B".data, [], [], [], [], "redbee".data, [], false, false⟩,
       ⟨"20250731180000 +0000".data, "a".data, "A".data, [], [], [], [], "syn".data, [], false, false⟩]).Pairwise
      (fun p q : Programme => lexLe p.start q.start = true) :=
  (C8_assembled_programmes_sorted_stable
    [("a".data, ⟨"A".data, [],
      [⟨"20250731200000 +0000".data, "b".data, "B".data, [], [], [], [], "redbee".data, [], false, false⟩,
       ⟨"20250731180000 +0000".data, "a".data, "A".data, [], [], [], [], "syn".data, [], false, false⟩]⟩)]
    "a".data
    ⟨"A".data, [],
      [⟨"20250731200000 +0000".data, "b".data, "B".data, [], [], [], [], "redbee".data, [], false, false⟩,
       ⟨"20250731180000 +0000".data, "a".data, "A".data, [], [], [], [], "syn".data, [], false, false⟩]⟩
    (by decide)).2.1

/-- Claim C10: the fold over one fetched day's secondary programmes succeeds
exactly when every entry's own derived channel key — the normalization of its
`midill` slug (defaulting to the fetched slug) — is already present in the
accumulated channel map; the title-update and duplicate-scan steps index the
map at that derived key, which can differ from the pre-seeded key of the slug
being fetched, and an unknown derived key makes the lookup raise `KeyError`. -/
theorem C10_fold_total_iff_derived_keys_present :
    ∀ (cet : PyStr → PyStr → PyStr) (slug : PyStr) (cd : CD) (ps : List SynProg),
    (∃ cd', synProgsFold cet slug cd ps = Except.ok cd') ↔
    (∀ pd ∈ ps,
      (lookupC cd (normalize_channel_slug (pd.midill.getD slug) "syn".data)).isSome = true) := by
  intro cet slug cd ps
  induction ps generalizing cd with
  | nil =>
    constructor
    · intro _ pd hpd
      simp at hpd
    · intro _
      exact ⟨cd, rfl⟩
  | cons pd rest ih =>
    simp only [synProgsFold]
    cases hstep : synProgStep cet slug cd pd with
    | error e =>
      have hl : lookupC cd (normalize_channel_slug (pd.midill.getD slug) "syn".data) = none := by
        cases hl0 : lookupC cd (normalize_channel_slug (pd.midill.getD slug) "syn".data) with
        | none => rfl
        | some ch =>
          rw [synProgStep_of_lookup_some cet slug cd pd ch hl0] at hstep
          simp at hstep
      constructor
      · rintro ⟨cd', h⟩
        simp at h
      · intro hall
        have := hall pd (by simp)
        rw [hl] at this
        simp at this
    | ok cdN =>
      have hpres : ∀ k, (lookupC cdN k).isSome = (lookupC cd k).isSome :=
        synProgStep_ok_presence hstep
      have hhead :
          (lookupC cd (normalize_channel_slug (pd.midill.getD slug) "syn".data)).isSome = true := by
        cases hl0 : lookupC cd (normalize_channel_slug (pd.midill.getD slug) "syn".data) with
        | none =>
          rw [synProgStep_of_lookup_none cet slug cd pd hl0] at hstep
          simp at hstep
        | some ch => rfl
      constructor
      · rintro ⟨cd', h⟩
        have h' : synProgsFold cet slug cdN rest = Except.ok cd' := h
        intro pd' hpd'
        rcases List.mem_cons.mp hpd' with rfl | hmemr
        · exact hhead
        · have := (ih cdN).mp ⟨cd', h'⟩ pd' hmemr
          rw [hpres] at this
          exact this
      · intro hall
        obtain ⟨cd', h'⟩ := (ih cdN).mpr
          (fun pd' hm => by rw [hpres]; exact hall pd' (by simp [hm]))
        exact ⟨cd', h'⟩

/-- Claim C1, counterexample: a channel contributed only by the primary
source, for which the primary supplied no programmes (here: no EPG URL was
found for it) and which the secondary source does not list, ends the merge
with an empty programme list — no placeholder is synthesized for it. -/
theorem C1_counterexample :
    ∃ e ∈ build_epg (fun s _ => s) 0
        (Except.ok [⟨"foo".data, "Foo".data, [], Except.ok none, Except.ok []⟩])
        (Except.ok []) (fun _ _ => Except.ok []),
      e.2.programmes = [] := by
  decide

/-- Claim C1 (amended): non-emptiness is guaranteed only for channel keys
listed by the secondary source whose per-day fetches all returned no
programmes — if the secondary phase finished without raising, such a key
resolves to a channel with a non-empty programme list (a placeholder was
synthesized if nothing else was there); channel keys contributed only by the
primary source may keep an empty programme list. -/
theorem C1_secondary_listed_channels_nonempty :
    ∀ (cet : PyStr → PyStr → PyStr) (now : Int)
      (pairs : List (PyStr × List (List SynProg))) (cd : CD)
      (slug : PyStr) (pls : List (List SynProg)),
    (∃ r, synPhaseE cet now pairs cd = Except.ok r) →
    (slug, pls) ∈ pairs →
    (∀ l ∈ pls, l = []) →
    keyNonempty (synPhase cet now pairs cd) (normalize_channel_slug slug "syn".data) := by
  intro cet now pairs cd slug pls
  induction pairs generalizing cd with
  | nil =>
    intro _ hmem _
    simp at hmem
  | cons sp rest ih =>
    intro hok hmem hempty
    obtain ⟨s0, pl0⟩ := sp
    cases hstep : synSlugStep cet now cd s0 pl0 with
    | error e =>
      obtain ⟨r, hr⟩ := hok
      rw [synPhaseE_cons_error hstep] at hr
      simp at hr
    | ok cd1 =>
      rw [synPhase_cons_ok hstep]
      have hok' : ∃ r, synPhaseE cet now rest cd1 = Except.ok r := by
        obtain ⟨r, hr⟩ := hok
        rw [synPhaseE_cons_ok hstep] at hr
        exact ⟨r, hr⟩
      rcases List.mem_cons.mp hmem with heq | hmem'
      · injection heq with h1 h2
        subst h1
        subst h2
        exact keyNonempty_synPhase cet now rest
          (keyNonempty_synSlugStep_all_empty cet now cd slug hempty hstep)
      · exact ih cd1 hok' hmem' hempty

theorem C1_witness :
    (∃ r, synPhaseE (fun s _ => s) 0 [("a".data, [[], []])] [] = Except.ok r) ∧
    keyNonempty (synPhase (fun s _ => s) 0 [("a".data, [[], []])] [])
      (normalize_channel_slug "a".data "syn".data) :=
  ⟨⟨[("a".data, ⟨"A".data, [], [placeholder_programme 0]⟩)], rfl⟩,
   C1_secondary_listed_channels_nonempty (fun s _ => s) 0 [("a".data, [[], []])] []
     "a".data [[], []]
     ⟨[("a".data, ⟨"A".data, [], [placeholder_programme 0]⟩)], rfl⟩
     (by simp) (by decide)⟩

/-- Claim C5: for a channel key listed by the secondary source whose per-day
fetches all returned no entries and whose channel record (if it already
exists) still has an empty programme list, the slug's iteration succeeds and
leaves exactly one programme on that channel: the placeholder, spanning from
`now` to 24 hours (86400 seconds) later, with the fixed sentinel title and
description and provenance tag `placeholder`. -/
theorem C5_placeholder_synthesized_exactly_once :
    ∀ (cet : PyStr → PyStr → PyStr) (now : Int) (cd : CD)
      (slug : PyStr) (pls : List (List SynProg)),
    (∀ l ∈ pls, l = []) →
    (∀ ch0, lookupC cd (normalize_channel_slug slug "syn".data) = some ch0 →
      ch0.programmes = []) →
    ∃ cd' ch', synSlugStep cet now cd slug pls = Except.ok cd' ∧
      lookupC cd' (normalize_channel_slug slug "syn".data) = some ch' ∧
      ch'.programmes =
        [{ start := format_date (isoOfSec now ++ "Z".data)
           stop := format_date (isoOfSec (now + 86400) ++ "Z".data)
           title := "No programming information available".data
           desc := "No programme schedule is currently available for this channel.".data
           season := []
           episode := []
           images := []
           source := "placeholder".data
           category := "Information".data
           live := false
           premiere := false }] := by
  intro cet now cd slug pls hpl hch
  cases h0 : lookupC cd (normalize_channel_slug slug "syn".data) with
  | none =>
    refine ⟨_, ⟨pyUpper slug, [], [placeholder_programme now]⟩,
      synSlugStep_all_empty_new cet now cd slug hpl h0, lookupC_setC_self _ _ _, rfl⟩
  | some ch0 =>
    have he : ch0.programmes = [] := hch ch0 h0
    refine ⟨_, { ch0 with programmes := ch0.programmes ++ [placeholder_programme now] },
      synSlugStep_all_empty_existing_empty cet now cd slug hpl h0 he,
      lookupC_setC_self _ _ _, ?_⟩
    rw [he]
    rfl

theorem C5_witness :
    lookupC
      (setC (setC ([] : CD) (normalize_channel_slug "a".data "syn".data)
          ⟨pyUpper "a".data, [], []⟩)
        (normalize_channel_slug "a".data "syn".data)
        ⟨pyUpper "a".data, [], [placeholder_programme 7200]⟩)
      (normalize_channel_slug "a".data "syn".data) =
      some ⟨pyUpper "a".data, [], [placeholder_programme 7200]⟩ ∧
    ∃ cd' ch', synSlugStep (fun s _ => s) 7200 [] "a".data [[]] = Except.ok cd' ∧
      lookupC cd' (normalize_channel_slug "a".data "syn".data) = some ch' ∧
      ch'.programmes =
        [{ start := format_date (isoOfSec 7200 ++ "Z".data)
           stop := format_date (isoOfSec (7200 + 86400) ++ "Z".data)
           title := "No programming information available".data
           desc := "No programme schedule is currently available for this channel.".data
           season := []
           episode := []
           images := []
           source := "placeholder".data
           category := "Information".data
           live := false
           premiere := false }] :=
  ⟨by decide,
   C5_placeholder_synthesized_exactly_once (fun s _ => s) 7200 [] "a".data [[]]
     (by decide) (by intro ch0 h; simp [lookupC] at h)⟩

/-- Claim C2, counterexample: the primary source supplies channel `stod2`
with the real non-empty title `Stod Two`; folding a secondary entry that
carries a non-empty `midill_heiti` replaces that title unconditionally — the
merge does not check whether the existing title was a raw-slug fallback. -/
theorem C2_counterexample :
    (lookupC (build_epg (fun s _ => s) 0
        (Except.ok [⟨"stod2".data, "Stod Two".data, [], Except.ok none, Except.ok []⟩])
        (Except.ok ["stod2".data])
        (fun _ d => if d = "1970-01-01".data
          then Except.ok [⟨none, "STOD 2 SYN".data, "1970-01-01T12:00:00Z".data, none,
            "Show".data, [], [], [], [], [], false, false⟩]
          else Except.ok [])) "stod2".data).map Channel.title =
      some "STOD 2 SYN".data ∧
    ("Stod Two".data : PyStr) ≠ "STOD 2 SYN".data := by
  constructor
  · decide
  · decide

/-- Claim C2 (amended): when folding a secondary entry into the channel at
its derived key, the display title is overwritten exactly when the entry
supplies a non-empty `midill_heiti` — regardless of whether the existing
title came from the primary source as a real title; when the secondary
title is empty or missing, the existing title is kept (never blanked). -/
theorem C2_title_overwritten_iff_secondary_title_nonempty :
    ∀ (cet : PyStr → PyStr → PyStr) (slug : PyStr) (cd : CD) (pd : SynProg) (ch : Channel),
    lookupC cd (normalize_channel_slug (pd.midill.getD slug) "syn".data) = some ch →
    ∃ cd', synProgStep cet slug cd pd = Except.ok cd' ∧
      ∃ ch', lookupC cd' (normalize_channel_slug (pd.midill.getD slug) "syn".data) = some ch' ∧
        ch'.title = (if pd.midill_heiti = [] then ch.title else pd.midill_heiti) := by
  intro cet slug cd pd ch hl
  refine ⟨_, synProgStep_of_lookup_some cet slug cd pd ch hl, _,
    lookupC_setC_self _ _ _, ?_⟩
  by_cases h : pd.midill_heiti = []
  · simp [h]
  · simp [h]

theorem C2_witness :
    lookupC [("a".data, (⟨"T".data, [], []⟩ : Channel))]
      (normalize_channel_slug ((none : Option PyStr).getD "a".data) "syn".data) =
      some ⟨"T".data, [], []⟩ ∧
    ∃ cd', synProgStep (fun s _ => s) "a".data [("a".data, ⟨"T".data, [], []⟩)]
        ⟨none, "New".data, "1970-01-01T00:00:00Z".data, none,
          [], [], [], [], [], [], false, false⟩ = Except.ok cd' ∧
      ∃ ch', lookupC cd'
          (normalize_channel_slug ((none : Option PyStr).getD "a".data) "syn".data) =
            some ch' ∧
        ch'.title = (if ("New".data : PyStr) = [] then "T".data else "New".data) :=
  ⟨by decide,
   C2_title_overwritten_iff_secondary_title_nonempty (fun s _ => s) "a".data
     [("a".data, ⟨"T".data, [], []⟩)]
     ⟨none, "New".data, "1970-01-01T00:00:00Z".data, none,
       [], [], [], [], [], [], false, false⟩
     ⟨"T".data, [], []⟩ (by decide)⟩

/-- Claim C6, counterexample: a raw title that is not of the
`S<season> E<episode> <title>` form is not passed through verbatim — its
surrounding whitespace is stripped: `" The News"` parses to `"The News"`. -/
theorem C6_counterexample :
    _parse_title " The News".data = ("The News".data, ([] : PyStr), ([] : PyStr)) ∧
    (" The News".data : PyStr) ≠ "The News".data := by
  constructor
  · decide
  · decide

/-- Claim C6 (amended): tokenizing the stripped raw title on whitespace, a
title of the form `S<season> E<episode> <title…>` (at least three tokens,
the first beginning with `S`, the second with `E`) splits into the season
(rest of token one), episode (rest of token two), and the remaining tokens
joined by single spaces; any other raw title is passed through with only its
surrounding whitespace stripped (not fully verbatim), with empty season and
episode. -/
theorem C6_title_parse_splits_or_strips :
    ∀ raw : PyStr,
    (∀ s e : PyStr, ∀ ts : List PyStr, ts ≠ [] →
      splitWs (pyStrip raw) = ('S' :: s) :: ('E' :: e) :: ts →
      _parse_title raw = (List.intercalate " ".data ts, s, e)) ∧
    ((¬ ∃ s e : PyStr, ∃ ts : List PyStr, ts ≠ [] ∧
        splitWs (pyStrip raw) = ('S' :: s) :: ('E' :: e) :: ts) →
      _parse_title raw = (pyStrip raw, [], [])) := by
  intro raw
  constructor
  · intro s e ts hts hsp
    cases ts with
    | nil => exact absurd rfl hts
    | cons t0 trest =>
      have h1 : "S".data.isPrefixOf ('S' :: s) = true := isPrefixOf_single.mpr ⟨s, rfl⟩
      have h2 : "E".data.isPrefixOf ('E' :: e) = true := isPrefixOf_single.mpr ⟨e, rfl⟩
      simp [_parse_title, hsp, h1, h2]
  · intro hno
    cases hsp : splitWs (pyStrip raw) with
    | nil => simp [_parse_title, hsp]
    | cons p0 rest1 =>
      cases rest1 with
      | nil => simp [_parse_title, hsp]
      | cons p1 rest2 =>
        cases rest2 with
        | nil => simp [_parse_title, hsp]
        | cons r0 rs =>
          by_cases hc : ("S".data.isPrefixOf p0 && "E".data.isPrefixOf p1) = true
          · exfalso
            rw [Bool.and_eq_true] at hc
            obtain ⟨h1, h2⟩ := hc
            obtain ⟨s, hs⟩ := isPrefixOf_single.mp h1
            obtain ⟨e, he⟩ := isPrefixOf_single.mp h2
            exact hno ⟨s, e, r0 :: rs, by simp, by rw [hsp, hs, he]⟩
          · simp [_parse_title, hsp, hc]

theorem C6_witness :
    _parse_title "S2 E20 Friends".data = ("Friends".data, "2".data, "20".data) ∧
    _parse_title "The News".data = ("The News".data, ([] : PyStr), ([] : PyStr)) := by
  constructor
  · have h := (C6_title_parse_splits_or_strips "S2 E20 Friends".data).1 "2".data "20".data
      ["Friends".data] (by decide) (by decide)
    rw [h]
    decide
  · have h := (C6_title_parse_splits_or_strips "The News".data).2 (by
      rintro ⟨s, e, ts, hts, hsp⟩
      rw [show splitWs (pyStrip "The News".data) = [['T','h','e'], ['N','e','w','s']]
        from by decide] at hsp
      injection hsp with hA hB
      injection hA with hC hD
      exact absurd hC (by decide))
    rw [h]
    decide

/-- Claim C7, counterexample: in the primary (Redbee) adapter one failed
per-channel fetch aborts the remainder of the pass — with channel `a`'s
asset fetch raising, channel `b` (perfectly fetchable) never enters the
result at all, so the adapter does not produce results for every other
channel. -/
theorem C7_counterexample :
    redbeePhase (Except.ok
      [⟨"a".data, "A".data, [], Except.ok (some "u".data), Except.error ()⟩,
       ⟨"b".data, "B".data, [], Except.ok none, Except.ok []⟩]) =
      [("a".data, ⟨"A".data, [], []⟩)] ∧
    lookupC (redbeePhase (Except.ok
      [⟨"a".data, "A".data, [], Except.ok (some "u".data), Except.error ()⟩,
       ⟨"b".data, "B".data, [], Except.ok none, Except.ok []⟩])) "b".data = none := by
  constructor
  · decide
  · decide

/-- Claim C7 (amended): per-unit failure isolation holds for the secondary
adapter only — a failed syn.is per-(channel, day) fetch yields an empty list
for that unit and the merge result is identical to that unit legitimately
having no data, every other unit still being processed; total unavailability
of the syn.is channel list or of the whole Redbee source yields an empty
contribution rather than a propagated error.  (The primary adapter, by
contrast, abandons its remaining channels on a single per-channel failure —
see the counterexample.) -/
theorem C7_secondary_unit_failure_isolated :
    ∀ (u : Unit) (cet : PyStr → PyStr → PyStr) (now : Int)
      (outer : Except Unit (List RedChannel)) (raw : Except Unit (List PyStr))
      (f f' : PyStr → PyStr → Except Unit (List SynProg)) (s0 d0 : PyStr),
    fetch_syn_epg (Except.error u) = [] ∧
    fetch_syn_channels (Except.error u) = [] ∧
    redbeePhase (Except.error u) = [] ∧
    ((∀ s d, ¬ (s = s0 ∧ d = d0) → f s d = f' s d) →
      f s0 d0 = Except.error u →
      f' s0 d0 = Except.ok [] →
      build_epg cet now outer raw f = build_epg cet now outer raw f') := by
  intro u cet now outer raw f f' s0 d0
  refine ⟨rfl, rfl, rfl, ?_⟩
  intro hne hf0 hf'0
  simp only [build_epg]
  refine congrArg (fun ps => synPhase cet now ps (redbeePhase outer)) ?_
  refine List.map_congr_left ?_
  intro slug _
  refine congrArg (fun l => (slug, l)) ?_
  refine List.map_congr_left ?_
  intro d _
  by_cases hsd : slug = s0 ∧ d = d0
  · obtain ⟨rfl, rfl⟩ := hsd
    rw [hf0, hf'0]
    rfl
  · rw [hne slug d hsd]

theorem C7_witness :
    build_epg (fun s _ => s) 0 (Except.error ()) (Except.ok ["a".data])
      (fun s d => if s = "a".data ∧ d = "x".data then Except.error () else Except.ok []) =
    build_epg (fun s _ => s) 0 (Except.error ()) (Except.ok ["a".data])
      (fun _ _ => Except.ok []) :=
  (C7_secondary_unit_failure_isolated () (fun s _ => s) 0 (Except.error ())
    (Except.ok ["a".data])
    (fun s d => if s = "a".data ∧ d = "x".data then Except.error () else Except.ok [])
    (fun _ _ => Except.ok []) "a".data "x".data).2.2.2
    (fun _ _ h => if_neg h) (if_pos ⟨rfl, rfl⟩) rfl

/-- Claim C9, counterexample: a duration string that parses successfully to
zero minutes (`"00:00"`) is applied as-is — the end-time computation returns
`stop = start`, violating `start < stop`, and does not fall back to the
default one-hour duration.  The fallback fires only when parsing raises. -/
theorem C9_counterexample :
    parseDuration "00:00".data = some (0, 0) ∧
    calculate_end_time 0 "00:00".data = 0 ∧
    ¬ (0 : Int) < calculate_end_time 0 "00:00".data ∧
    calculate_end_time 0 "00:00".data ≠ 0 + 3600 := by
  refine ⟨by decide, by decide, by decide, by decide⟩

/-- Claim C9 (amended): the fixed default duration (one hour) is applied
exactly when parsing the duration string raises; a successfully parsed
duration is applied unconditionally, so the result is strictly after the
start if and only if the parsed duration is positive — a zero or negative
parsed duration produces `stop ≤ start` without any fallback, and the
`start < stop` invariant is not enforced. -/
theorem C9_fallback_only_on_parse_failure :
    ∀ (start : Int) (d : PyStr),
    (parseDuration d = none → calculate_end_time start d = start + 3600) ∧
    (∀ h m : Int, parseDuration d = some (h, m) →
      calculate_end_time start d = start + 3600 * h + 60 * m ∧
      (start < calculate_end_time start d ↔ 0 < 3600 * h + 60 * m)) := by
  intro start d
  constructor
  · intro hn
    simp [calculate_end_time, hn]
  · intro h m hs
    constructor
    · simp [calculate_end_time, hs]
    · simp only [calculate_end_time, hs]
      omega

theorem C9_witness :
    parseDuration "01:30".data = some (1, 30) ∧
    calculate_end_time 0 "01:30".data = 0 + 3600 * 1 + 60 * 30 ∧
    parseDuration "bogus".data = none ∧
    calculate_end_time 5 "bogus".data = 5 + 3600 :=
  ⟨by decide,
   ((C9_fallback_only_on_parse_failure 0 "01:30".data).2 1 30 (by decide)).1,
   by decide,
   (C9_fallback_only_on_parse_failure 5 "bogus".data).1 (by decide)⟩

theorem C10_witness :
    (∀ pd ∈ [(⟨some "b".data, [], "1970-01-01T00:00:00Z".data, none,
        [], [], [], [], [], [], false, false⟩ : SynProg)],
      (lookupC [("b".data, (⟨"B".data, [], []⟩ : Channel))]
        (normalize_channel_slug (pd.midill.getD "a".data) "syn".data)).isSome = true) ∧
    ∃ cd', synProgsFold (fun s _ => s) "a".data [("b".data, ⟨"B".data, [], []⟩)]
      [⟨some "b".data, [], "1970-01-01T00:00:00Z".data, none,
        [], [], [], [], [], [], false, false⟩] = Except.ok cd' :=
  ⟨by decide,
   (C10_fold_total_iff_derived_keys_present (fun s _ => s) "a".data
     [("b".data, ⟨"B".data, [], []⟩)]
     [⟨some "b".data, [], "1970-01-01T00:00:00Z".data, none,
       [], [], [], [], [], [], false, false⟩]).mpr (by decide)⟩
